import Mathlib

set_option maxHeartbeats 1000000

/-!
Shallow embedding of the asciidoctor-rs core: the buffered lexer
(src/lexer.rs) and the HTML generator (src/gen/html.rs).

Bytes are modelled as natural numbers (the source works on u8; every byte
literal below is the decimal value of the ASCII character named next to it).
The lexer's `Read` source is modelled as the list of bytes remaining in the
reader; a read fills the start of the 4096-byte buffer with
min(remaining, 4096) bytes, leaving the rest of the buffer unchanged, which
matches reading from an in-memory byte source.  The buffer is modelled as a
total function from index to byte so that stale bytes beyond the filled
region are kept faithfully (the Rust buffer is a fixed `[u8; 4096]` array
whose bytes beyond `buffer_size` retain their previous contents, initially
zero).  Looping functions take an explicit fuel argument and return `none`
when it runs out; every theorem below supplies enough fuel.
-/

/-- Position in the source text: line and column, both 1-based
(the `Pos` type of the repository, built with `Pos::new(line, column)`). -/
structure Pos where
  line : Nat
  column : Nat
  deriving DecidableEq, Repr

/-- Error kinds used by the lexer (module `error` of the repository):
end of file, an unexpected character carrying the actual byte, the list of
expected bytes and the position, and the internal invariant failure raised
by `Lexer::word` via a message (`bail!("bug in the parser, ...")`), which
carries the offending byte. -/
inductive ErrorKind where
  | Eof : ErrorKind
  | UnexpectedChar (actual : Nat) (expected : List Nat) (pos : Pos) : ErrorKind
  | InternalError (actual : Nat) : ErrorKind
  deriving DecidableEq, Repr

/-- Tokens produced by the lexer (`token::Token`). -/
inductive Token where
  | NewLine : Token
  | NumberSign : Token
  | Space : Token
  | TripleApos : Token
  | TripleLt : Token
  | Word (bytes : List Nat) : Token
  deriving DecidableEq, Repr

-- Equality of lexer results is decidable (used by the concrete-input theorems).
deriving instance DecidableEq for Except

/-- `BUFFER_SIZE` from src/lexer.rs. -/
def BUFFER_SIZE : Nat := 4096

/-- The lexer state: the fields of `struct Lexer` in src/lexer.rs.
`buffer` is the 4096-byte array as a total function (indices at or above
4096 are never written and stay 0), `reader` is the list of bytes not yet
read from the byte source. -/
structure LexState where
  buffer : Nat → Nat
  bufferIndex : Nat
  bufferSize : Nat
  column : Nat
  line : Nat
  reader : List Nat

namespace Lexer

/-- `Lexer::new`: buffer zeroed, buffer_index = BUFFER_SIZE, buffer_size = 0,
column = line = 1. -/
def new (input : List Nat) : LexState :=
  { buffer := fun _ => 0
    bufferIndex := BUFFER_SIZE
    bufferSize := 0
    column := 1
    line := 1
    reader := input }

/-- `Lexer::pos`. -/
def pos (st : LexState) : Pos :=
  ⟨st.line, st.column⟩

/-- `Lexer::advance`: increment the buffer index; a newline (byte 10)
increments the line and resets the column to 1, any other byte increments
the column. -/
def advance (actual : Nat) (st : LexState) : LexState :=
  { st with
    bufferIndex := st.bufferIndex + 1
    line := if actual = 10 then st.line + 1 else st.line
    column := if actual = 10 then 1 else st.column + 1 }

/-- `Lexer::read_if_needed`: when the cursor has reached the filled length,
read from the source; a read of zero bytes sets buffer_size to 0 and fails
with Eof, otherwise the first n bytes of the buffer are overwritten, the
size becomes n and the cursor returns to 0. -/
def readIfNeeded (st : LexState) : Except ErrorKind Unit × LexState :=
  if st.bufferSize ≤ st.bufferIndex then
    let n := min st.reader.length BUFFER_SIZE
    if n = 0 then
      (Except.error ErrorKind.Eof, { st with bufferSize := 0 })
    else
      (Except.ok (),
        { st with
          buffer := fun i => if i < n then st.reader.getD i 0 else st.buffer i
          bufferIndex := 0
          bufferSize := n
          reader := st.reader.drop n })
  else
    (Except.ok (), st)

/-- `Lexer::current_char`: fill the buffer if needed, then return the byte
under the cursor. -/
def currentChar (st : LexState) : Except ErrorKind Nat × LexState :=
  match readIfNeeded st with
  | (Except.error e, st₁) => (Except.error e, st₁)
  | (Except.ok _, st₁) => (Except.ok (st₁.buffer st₁.bufferIndex), st₁)

/-- `Lexer::eat`: consume the next byte when it equals the expected one,
otherwise fail with UnexpectedChar carrying the actual byte, the singleton
expected list and the current position. -/
def eat (expected : Nat) (st : LexState) : Except ErrorKind Unit × LexState :=
  match readIfNeeded st with
  | (Except.error e, st₁) => (Except.error e, st₁)
  | (Except.ok _, st₁) =>
    match currentChar st₁ with
    | (Except.error e, st₂) => (Except.error e, st₂)
    | (Except.ok actual, st₂) =>
      if actual = expected then
        (Except.ok (), advance actual st₂)
      else
        (Except.error (ErrorKind.UnexpectedChar actual [expected] (pos st₂)), st₂)

/-- `Lexer::advance_while`: loop reading the current byte and advancing
while the predicate holds.  The fuel bounds the number of loop iterations;
`none` means the fuel ran out. -/
def advanceWhile (fuel : Nat) (p : Nat → Bool) (st : LexState) :
    Option (Except ErrorKind Unit × LexState) :=
  match fuel with
  | 0 => none
  | fuel + 1 =>
    match readIfNeeded st with
    | (Except.error e, st₁) => some (Except.error e, st₁)
    | (Except.ok _, st₁) =>
      match currentChar st₁ with
      | (Except.error e, st₂) => some (Except.error e, st₂)
      | (Except.ok actual, st₂) =>
        if p actual then advanceWhile fuel p (advance actual st₂)
        else some (Except.ok (), st₂)

/-- `Lexer::advance_to_eol`: advance while the byte is not a newline. -/
def advanceToEol (fuel : Nat) (st : LexState) :
    Option (Except ErrorKind Unit × LexState) :=
  advanceWhile fuel (fun c => c != 10) st

/-- The four-byte window `&self.buffer[self.buffer_index..self.buffer_index + 4]`
that `Lexer::comment` compares against `b"////"`.  (In Rust this slice
panics when buffer_index + 4 exceeds 4096; reads between buffer_size and
4096 return stale bytes, which the total buffer function reproduces.) -/
def window (st : LexState) : List Nat :=
  [st.buffer st.bufferIndex, st.buffer (st.bufferIndex + 1),
   st.buffer (st.bufferIndex + 2), st.buffer (st.bufferIndex + 3)]

/-- The delimiter `b"////"`. -/
def commentDelim : List Nat := [47, 47, 47, 47]

/-- The `while` loop of `Lexer::comment` searching for the closing `////`
delimiter: while the window differs from the delimiter, eat a newline (the
result of this `eat` is discarded in the source, so only its state effect is
kept) and advance to the end of the line, propagating its errors.
The third component is a ghost trace recording the pair
(buffer_index, buffer_size) at every delimiter comparison the loop performs;
it has no effect on the result or the state. -/
def commentLoop (fuel : Nat) (st : LexState) (trace : List (Nat × Nat)) :
    Option (Except ErrorKind Unit × LexState × List (Nat × Nat)) :=
  match fuel with
  | 0 => none
  | fuel + 1 =>
    let trace := trace ++ [(st.bufferIndex, st.bufferSize)]
    if window st = commentDelim then
      some (Except.ok (), st, trace)
    else
      let st₁ := (eat 10 st).2
      match advanceToEol fuel st₁ with
      | none => none
      | some (Except.error e, st₂) => some (Except.error e, st₂, trace)
      | some (Except.ok _, st₂) => commentLoop fuel st₂ trace

/-- `Lexer::comment`: eat `//`; if the current byte is a third slash, eat two
more slashes (results discarded in the source, state effects kept) and run
the delimiter-search loop; otherwise skip to the end of the line.  The last
component is the ghost comparison trace of the loop (empty when the loop is
not entered). -/
def comment (fuel : Nat) (st : LexState) :
    Option (Except ErrorKind Unit × LexState × List (Nat × Nat)) :=
  match eat 47 st with
  | (Except.error e, st₁) => some (Except.error e, st₁, [])
  | (Except.ok _, st₁) =>
    match eat 47 st₁ with
    | (Except.error e, st₂) => some (Except.error e, st₂, [])
    | (Except.ok _, st₂) =>
      match currentChar st₂ with
      | (Except.error e, st₃) => some (Except.error e, st₃, [])
      | (Except.ok c, st₃) =>
        if c = 47 then
          let st₄ := (eat 47 st₃).2
          let st₅ := (eat 47 st₄).2
          commentLoop fuel st₅ []
        else
          match advanceToEol fuel st₃ with
          | none => none
          | some (r, st₄) => some (r, st₄, [])

/-- `Lexer::newline`. -/
def newline (st : LexState) : Except ErrorKind Token × LexState :=
  match eat 10 st with
  | (Except.error e, st₁) => (Except.error e, st₁)
  | (Except.ok _, st₁) => (Except.ok Token.NewLine, st₁)

/-- `Lexer::number_sign`. -/
def numberSign (st : LexState) : Except ErrorKind Token × LexState :=
  match eat 35 st with
  | (Except.error e, st₁) => (Except.error e, st₁)
  | (Except.ok _, st₁) => (Except.ok Token.NumberSign, st₁)

/-- `Lexer::space`. -/
def space (st : LexState) : Except ErrorKind Token × LexState :=
  match eat 32 st with
  | (Except.error e, st₁) => (Except.error e, st₁)
  | (Except.ok _, st₁) => (Except.ok Token.Space, st₁)

/-- `Lexer::triple_apos`: eat three apostrophes (byte 39). -/
def tripleApos (st : LexState) : Except ErrorKind Token × LexState :=
  match eat 39 st with
  | (Except.error e, st₁) => (Except.error e, st₁)
  | (Except.ok _, st₁) =>
    match eat 39 st₁ with
    | (Except.error e, st₂) => (Except.error e, st₂)
    | (Except.ok _, st₂) =>
      match eat 39 st₂ with
      | (Except.error e, st₃) => (Except.error e, st₃)
      | (Except.ok _, st₃) => (Except.ok Token.TripleApos, st₃)

/-- `Lexer::triple_lt`: eat three less-than signs (byte 60). -/
def tripleLt (st : LexState) : Except ErrorKind Token × LexState :=
  match eat 60 st with
  | (Except.error e, st₁) => (Except.error e, st₁)
  | (Except.ok _, st₁) =>
    match eat 60 st₁ with
    | (Except.error e, st₂) => (Except.error e, st₂)
    | (Except.ok _, st₂) =>
      match eat 60 st₂ with
      | (Except.error e, st₃) => (Except.error e, st₃)
      | (Except.ok _, st₃) => (Except.ok Token.TripleLt, st₃)

/-- The word delimiter set of `Lexer::word`:
space 32, star 42, underscore 95, backquote 96, number sign 35, open
bracket 91, caret 94, tilde 126, colon 58, newline 10, carriage return 13,
tab 9. -/
def delimiters : List Nat := [32, 42, 95, 96, 35, 91, 94, 126, 58, 10, 13, 9]

/-- The predicate of the `advance_while` call in `Lexer::word`:
the byte is not in the delimiter set. -/
def wordPred (c : Nat) : Bool := !(delimiters.contains c)

/-- The slice `self.buffer[a..b].to_vec()` taken in `Lexer::word`
(empty when b ≤ a; the Rust slice would panic in that case, which no claim
below reaches). -/
def bufSlice (st : LexState) (a b : Nat) : List Nat :=
  (List.range (b - a)).map (fun j => st.buffer (a + j))

/-- `Lexer::word`: remember the start index, advance while the byte is
outside the delimiter set; if nothing was consumed fail with the internal
"bug in the parser" error carrying the current byte, else return the Word
token holding the consumed slice of the buffer. -/
def word (fuel : Nat) (st : LexState) :
    Option (Except ErrorKind Token × LexState) :=
  let start := st.bufferIndex
  match advanceWhile fuel wordPred st with
  | none => none
  | some (Except.error e, st₁) => some (Except.error e, st₁)
  | some (Except.ok _, st₁) =>
    if st₁.bufferIndex = start then
      match currentChar st₁ with
      | (Except.error e, st₂) => some (Except.error e, st₂)
      | (Except.ok c, st₂) => some (Except.error (ErrorKind.InternalError c), st₂)
    else
      some (Except.ok (Token.Word (bufSlice st₁ start st₁.bufferIndex)), st₁)

/-- `Lexer::token`: fill the buffer if needed, look at the current byte and
dispatch: slash 47 runs `comment` and then recurses, less-than 60 is a
triple-lt, apostrophe 39 a triple-apos, newline 10 a newline token,
carriage return 13 is consumed silently and the call recurses, number sign
35 and space 32 give their tokens, anything else is a word. -/
def token (fuel : Nat) (st : LexState) :
    Option (Except ErrorKind Token × LexState) :=
  match fuel with
  | 0 => none
  | fuel + 1 =>
    match readIfNeeded st with
    | (Except.error e, st₁) => some (Except.error e, st₁)
    | (Except.ok _, st₁) =>
      match currentChar st₁ with
      | (Except.error e, st₂) => some (Except.error e, st₂)
      | (Except.ok c, st₂) =>
        if c = 47 then
          match comment fuel st₂ with
          | none => none
          | some (Except.error e, st₃, _) => some (Except.error e, st₃)
          | some (Except.ok _, st₃, _) => token fuel st₃
        else if c = 60 then some (tripleLt st₂)
        else if c = 39 then some (tripleApos st₂)
        else if c = 10 then some (newline st₂)
        else if c = 13 then token fuel (advance c st₂)
        else if c = 35 then some (numberSign st₂)
        else if c = 32 then some (space st₂)
        else word fuel st₂

/-- `Iterator::next` for the lexer: always `Some(self.token())`.  The outer
option is the iterator protocol (`none` would end iteration), the inner
option is the fuel of the embedding. -/
def next (fuel : Nat) (st : LexState) :
    Option (Option (Except ErrorKind Token × LexState)) :=
  some (token fuel st)

/-- Fuel sufficient for one `token` pull on the given input: every loop
iteration and recursive call consumes at least one byte of the buffered
input or the reader, except a bounded number of steps. -/
def fuelFor (input : List Nat) : Nat := input.length + BUFFER_SIZE + 8

/-- One token pull on a fresh lexer over the given input. -/
def tokenOn (input : List Nat) : Option (Except ErrorKind Token × LexState) :=
  token (fuelFor input) (new input)

/-- The ASCII bytes of a string, for readable concrete inputs. -/
def strBytes (s : String) : List Nat := s.data.map Char.toNat

end Lexer

/-!
The document model consumed by the generator.  The `node` module of the
repository is not among the sources; its shapes are modelled from the spec
and from the pattern matches of src/gen/html.rs.
-/

/-- Modelled from the spec: the tag kind of a generic tagged span (`node::Tag`,
whose definition is outside the given sources).  All the generator needs of
it is its `to_string` serialization, so it is modelled as that name. -/
structure Tag where
  name : String
  deriving DecidableEq, Repr

/-- Modelled from the spec: `node::Attribute` — `Id(String)` (unique anchor
target) or `Role(String)` (styling class). -/
inductive Attribute where
  | Id (v : String) : Attribute
  | Role (v : String) : Attribute
  deriving DecidableEq, Repr

mutual
/-- Modelled from the spec: `node::Item` — a literal word, a single space,
a mark (emphasized text plus attribute list) or a generic tagged span
(tag kind plus text plus attribute list).  The variant `Item::Tag` is named
`TagItem` here to avoid clashing with the `Tag` type. -/
inductive Item where
  | Mark (text : Text) (attributes : List Attribute) : Item
  | Space : Item
  | TagItem (tag : Tag) (text : Text) (attributes : List Attribute) : Item
  | Word (text : String) : Item

/-- Modelled from the spec: `node::Text`, an ordered sequence of items. -/
inductive Text where
  | mk (items : List Item) : Text
end

/-- Modelled from the spec: `node::Node` — horizontal rule, page break, or
paragraph. -/
inductive Node where
  | HorizontalRule : Node
  | PageBreak : Node
  | Paragraph (text : Text) : Node

/-- The intermediate HTML tree, `enum Html` of src/gen/html.rs.  The variant
`Html::Tag` is named `TagH` here to avoid clashing with the `Tag` type. -/
inductive Html where
  | A (id : String) : Html
  | Div (attributes : String) (child : Html) : Html
  | Empty : Html
  | Hr : Html
  | Mark (child : Html) : Html
  | P (child : Html) : Html
  | Seq (child1 : Html) (child2 : Html) : Html
  | SingleTextNode (text : String) : Html
  | Span (attributes : String) (child : Html) : Html
  | TagH (tag : Tag) (attributes : String) (child : Html) : Html
  | TextNode (children : List Html) : Html

/-- `attributes_to_string` of src/gen/html.rs: concatenate, in order and with
no separating whitespace, `id="v"` for an Id attribute and `class="v"` for a
Role attribute. -/
def attributes_to_string : List Attribute → String
  | [] => ""
  | Attribute.Id id :: rest => "id=\"" ++ id ++ "\"" ++ attributes_to_string rest
  | Attribute.Role role :: rest => "class=\"" ++ role ++ "\"" ++ attributes_to_string rest

/-- `find_id_attribute` of src/gen/html.rs: the first Id attribute in list
order, if any. -/
def find_id_attribute : List Attribute → Option String
  | [] => none
  | Attribute.Id id :: _ => some id
  | Attribute.Role _ :: rest => find_id_attribute rest

mutual
/-- `Html::write` of src/gen/html.rs, with the output sink modelled as a
string accumulator (each Rust `write!` appends).  The helpers `tag`,
`tag_a` and `tag_a_without_child` are inlined with their format strings
instantiated: a container with attributes opens with the tag name, one
space and the attribute string — even when that string is empty — while a
container without attributes opens with the bare name; `A(id)` writes the
empty-bodied anchor produced by `tag_a_without_child("a", attr! id)`;
`Seq` and `TextNode` write their children in order. -/
def Html.write : Html → String → String
  | Html.A id, w => (w ++ "<a " ++ ("id=\"" ++ id ++ "\"") ++ ">") ++ "</a>"
  | Html.Div attributes child, w =>
    Html.write child (w ++ "<div " ++ attributes ++ ">") ++ "</div>"
  | Html.Empty, w => w
  | Html.Hr, w => w ++ "<hr/>"
  | Html.Mark child, w => Html.write child (w ++ "<mark>") ++ "</mark>"
  | Html.P child, w => Html.write child (w ++ "<p>") ++ "</p>"
  | Html.Seq child1 child2, w => Html.write child2 (Html.write child1 w)
  | Html.SingleTextNode text, w => w ++ text
  | Html.Span attributes child, w =>
    Html.write child (w ++ "<span " ++ attributes ++ ">") ++ "</span>"
  | Html.TagH tag attributes child, w =>
    Html.write child (w ++ ("<" ++ tag.name ++ " " ++ attributes ++ ">"))
      ++ ("</" ++ tag.name ++ ">")
  | Html.TextNode children, w => Html.writeList children w

/-- The `for` loop of the `TextNode` case of `Html::write`. -/
def Html.writeList : List Html → String → String
  | [], w => w
  | n :: rest, w => Html.writeList rest (Html.write n w)
end

namespace HtmlGen

/-- `HtmlGen::mark` of src/gen/html.rs, with the inner text already rendered
by the caller (the source method's first line renders it; `item` below
passes the rendered text in): no attributes wrap in a mark element,
otherwise wrap in a span carrying the serialized attribute string. -/
def mark (rendered : Html) (attributes : List Attribute) : Html :=
  if attributes.isEmpty then Html.Mark rendered
  else Html.Span (attributes_to_string attributes) rendered

/-- `HtmlGen::tag` of src/gen/html.rs, with the inner text already rendered
by the caller: wrap in a generic tag node carrying the serialized attribute
string, and when the attribute list contains an Id, prepend the anchor stub
as a sibling before the tag node. -/
def tag (tg : Tag) (rendered : Html) (attributes : List Attribute) : Html :=
  let tagged := Html.TagH tg (attributes_to_string attributes) rendered
  match find_id_attribute attributes with
  | some id => Html.Seq (Html.A id) tagged
  | none => tagged

mutual
/-- `HtmlGen::item` of src/gen/html.rs (default trait method, the
`Generator` overrides nothing). -/
def item : Item → Html
  | Item.Mark t attributes => mark (text t) attributes
  | Item.Space => Html.SingleTextNode " "
  | Item.TagItem tg t attributes => tag tg (text t) attributes
  | Item.Word w => Html.SingleTextNode w

/-- `HtmlGen::text` of src/gen/html.rs: one child per item, in order. -/
def text : Text → Html
  | Text.mk items => Html.TextNode (itemList items)

/-- The `for` loop of `HtmlGen::text`. -/
def itemList : List Item → List Html
  | [] => []
  | i :: rest => item i :: itemList rest
end

/-- `HtmlGen::horizontal_rule`. -/
def horizontal_rule : Html := Html.Hr

/-- `HtmlGen::page_break`: a div with the fixed inline style wrapping an
empty node. -/
def page_break : Html :=
  Html.Div "style=\"page-break-after: always;\"" Html.Empty

/-- `HtmlGen::paragraph`: a div with the fixed paragraph class wrapping a
p element wrapping the rendered text. -/
def paragraph (t : Text) : Html :=
  Html.Div "class=\"paragraph\"" (Html.P (text t))

/-- `HtmlGen::node`. -/
def node : Node → Html
  | Node.HorizontalRule => horizontal_rule
  | Node.PageBreak => page_break
  | Node.Paragraph t => paragraph t

end HtmlGen

/-- `gen` of src/gen/html.rs: render the node and serialize it to the sink. -/
def gen (n : Node) (w : String) : String :=
  (HtmlGen.node n).write w

/-- Whether an attribute is an Id (used to state which attribute
`find_id_attribute` picks). -/
def Attribute.isId : Attribute → Bool
  | Attribute.Id _ => true
  | Attribute.Role _ => false

/-- Iterated `Lexer::advance` over a list of consumed bytes, used to state
how the position cursor evolves. -/
def Lexer.advanceList (bs : List Nat) (st : LexState) : LexState :=
  bs.foldl (fun s b => Lexer.advance b s) st

/-!
Helper lemmas.
-/

mutual
/-- The bytes `Html::write` appends do not depend on what the sink already
holds: writing after a sink prefix equals the prefix followed by what a
fresh sink would receive. -/
theorem write_append (t : Html) (s : String) :
    Html.write t s = s ++ Html.write t "" := by
  cases t with
  | A id => simp [Html.write, String.append_assoc, String.empty_append]
  | Div attributes child =>
    simp only [Html.write]
    rw [write_append child (s ++ "<div " ++ attributes ++ ">"),
        write_append child ("" ++ "<div " ++ attributes ++ ">")]
    simp [String.append_assoc, String.empty_append]
  | Empty => simp [Html.write, String.append_empty]
  | Hr => simp [Html.write]
  | Mark child =>
    simp only [Html.write]
    rw [write_append child (s ++ "<mark>"), write_append child ("" ++ "<mark>")]
    simp [String.append_assoc, String.empty_append]
  | P child =>
    simp only [Html.write]
    rw [write_append child (s ++ "<p>"), write_append child ("" ++ "<p>")]
    simp [String.append_assoc, String.empty_append]
  | Seq child1 child2 =>
    simp only [Html.write]
    rw [write_append child2 (Html.write child1 s),
        write_append child2 (Html.write child1 ""),
        write_append child1 s]
    simp [String.append_assoc, String.empty_append]
  | SingleTextNode text => simp [Html.write, String.empty_append]
  | Span attributes child =>
    simp only [Html.write]
    rw [write_append child (s ++ "<span " ++ attributes ++ ">"),
        write_append child ("" ++ "<span " ++ attributes ++ ">")]
    simp [String.append_assoc, String.empty_append]
  | TagH tag attributes child =>
    simp only [Html.write]
    rw [write_append child (s ++ ("<" ++ tag.name ++ " " ++ attributes ++ ">")),
        write_append child ("" ++ ("<" ++ tag.name ++ " " ++ attributes ++ ">"))]
    simp [String.append_assoc, String.empty_append]
  | TextNode children =>
    simp only [Html.write]
    exact writeList_append children s

/-- List version of `write_append`. -/
theorem writeList_append (l : List Html) (s : String) :
    Html.writeList l s = s ++ Html.writeList l "" := by
  cases l with
  | nil => simp [Html.writeList, String.append_empty]
  | cons n rest =>
    simp only [Html.writeList]
    rw [writeList_append rest (Html.write n s),
        writeList_append rest (Html.write n ""),
        write_append n s]
    simp [String.append_assoc, String.empty_append]
end

/-- `attributes_to_string` distributes over list append. -/
theorem attributes_to_string_append (l₁ l₂ : List Attribute) :
    attributes_to_string (l₁ ++ l₂) =
      attributes_to_string l₁ ++ attributes_to_string l₂ := by
  induction l₁ with
  | nil => simp [attributes_to_string, String.empty_append]
  | cons a rest ih =>
    cases a <;> simp [attributes_to_string, ih, String.append_assoc]

/-- `find_id_attribute` returns the first Id in list order, skipping any
id-free list in front of it. -/
theorem find_id_attribute_first (pre : List Attribute) (v : String)
    (rest : List Attribute) (h : ∀ a ∈ pre, a.isId = false) :
    find_id_attribute (pre ++ Attribute.Id v :: rest) = some v := by
  induction pre with
  | nil => simp [find_id_attribute]
  | cons a front ih =>
    cases a with
    | Id w =>
      have hw := h (Attribute.Id w) (by simp)
      simp [Attribute.isId] at hw
    | Role r =>
      simp only [List.cons_append, find_id_attribute]
      exact ih (fun a ha => h a (by simp [ha]))

/-!
The claims.
-/

/-- C1, counterexample: rendering the mark item with text "x" and the single
attribute Id "a" serializes to the bare span with the id inline —
`HtmlGen::mark` routes any attributed mark to `span_a` and never consults
`find_id_attribute`, so no anchor stub precedes the span, contradicting the
claim that the output is the anchor followed by the span. -/
theorem claim_C1_counterexample :
    Html.write (HtmlGen.item
        (Item.Mark (Text.mk [Item.Word "x"]) [Attribute.Id "a"])) ""
      = "<span id=\"a\">x</span>"
    ∧ "<span id=\"a\">x</span>"
      ≠ "<a id=\"a\"></a>" ++ "<span id=\"a\">x</span>" :=
  ⟨rfl, by decide⟩

/-- C1, amended: for every mark item whose attribute list is non-empty
(whether or not it contains an Id), rendering produces a span carrying the
serialized attribute string wrapping the rendered inner text, with no
anchor stub; the anchor-prepending behaviour belongs to tagged-span items
only (`HtmlGen::tag`). -/
theorem claim_C1_amended : ∀ (txt : Text) (attrs : List Attribute),
    attrs ≠ [] →
    HtmlGen.item (Item.Mark txt attrs)
      = Html.Span (attributes_to_string attrs) (HtmlGen.text txt)
    ∧ Html.write (HtmlGen.item (Item.Mark txt attrs)) ""
      = ("<span " ++ attributes_to_string attrs ++ ">")
          ++ Html.write (HtmlGen.text txt) "" ++ "</span>" := by
  intro txt attrs h
  have hne : attrs.isEmpty = false := by
    cases attrs with
    | nil => exact absurd rfl h
    | cons a rest => rfl
  constructor
  · simp [HtmlGen.item, HtmlGen.mark, hne]
  · simp only [HtmlGen.item, HtmlGen.mark, hne, Bool.false_eq_true, if_false,
      Html.write]
    rw [write_append (HtmlGen.text txt)]
    simp [String.append_assoc, String.empty_append]

/-- C1, witness: the amended theorem evaluated at the mark item of the
claim, text "x" with the single Id attribute "a". -/
theorem claim_C1_witness :
    HtmlGen.item (Item.Mark (Text.mk [Item.Word "x"]) [Attribute.Id "a"])
      = Html.Span (attributes_to_string [Attribute.Id "a"])
          (HtmlGen.text (Text.mk [Item.Word "x"]))
    ∧ Html.write (HtmlGen.item
        (Item.Mark (Text.mk [Item.Word "x"]) [Attribute.Id "a"])) ""
      = ("<span " ++ attributes_to_string [Attribute.Id "a"] ++ ">")
          ++ Html.write (HtmlGen.text (Text.mk [Item.Word "x"])) "" ++ "</span>" :=
  claim_C1_amended (Text.mk [Item.Word "x"]) [Attribute.Id "a"] (by decide)

/-- C7: `Html::write` is a pure function of the tree — the bytes it appends
do not depend on the sink contents, so serializing to two fresh sinks
yields the same bytes, and serializing twice into the same sink appends the
identical byte sequence both times. -/
theorem claim_C7_write_pure : ∀ (t : Html) (s : String),
    Html.write t s = s ++ Html.write t ""
    ∧ Html.write t (Html.write t "") = Html.write t "" ++ Html.write t "" := by
  intro t s
  exact ⟨write_append t s, write_append t (Html.write t "")⟩

/-- C9: a tagged-span item with an empty attribute list opens with the tag
name, an unconditional space and the empty attribute string before the
closing bracket, while a mark with no attributes opens as a bare mark
element without the space. -/
theorem claim_C9_empty_attribute_space : ∀ (tg : Tag) (txt : Text),
    Html.write (HtmlGen.item (Item.TagItem tg txt [])) ""
      = "<" ++ tg.name ++ " >" ++ Html.write (HtmlGen.text txt) ""
          ++ "</" ++ tg.name ++ ">"
    ∧ Html.write (HtmlGen.item (Item.Mark txt [])) ""
      = "<mark>" ++ Html.write (HtmlGen.text txt) "" ++ "</mark>" := by
  intro tg txt
  constructor
  · rw [show (" >" : String) = " " ++ ">" from rfl]
    simp only [HtmlGen.item, HtmlGen.tag, find_id_attribute, attributes_to_string,
      Html.write]
    rw [write_append (HtmlGen.text txt)]
    simp [String.append_assoc, String.empty_append, String.append_empty]
  · simp only [HtmlGen.item, HtmlGen.mark, List.isEmpty_nil, if_true, Html.write]
    rw [write_append (HtmlGen.text txt)]
    simp [String.append_assoc, String.empty_append]

/-- C10: when a tagged-span item's attribute list holds two Id attributes
(with only non-Id attributes before the first), exactly one anchor stub is
prepended and it carries the first Id in list order; the second Id is
ignored by the anchor search but still serialized inside the attribute
string, as the serialized output shows. -/
theorem claim_C10_first_id_wins : ∀ (tg : Tag) (txt : Text) (v₁ v₂ : String)
    (pre mid post : List Attribute),
    (∀ a ∈ pre, a.isId = false) →
    HtmlGen.item (Item.TagItem tg txt
        (pre ++ Attribute.Id v₁ :: (mid ++ Attribute.Id v₂ :: post)))
      = Html.Seq (Html.A v₁)
          (Html.TagH tg
            (attributes_to_string
              (pre ++ Attribute.Id v₁ :: (mid ++ Attribute.Id v₂ :: post)))
            (HtmlGen.text txt))
    ∧ attributes_to_string (pre ++ Attribute.Id v₁ :: (mid ++ Attribute.Id v₂ :: post))
      = attributes_to_string pre ++ ("id=\"" ++ v₁ ++ "\"")
          ++ attributes_to_string mid ++ ("id=\"" ++ v₂ ++ "\"")
          ++ attributes_to_string post
    ∧ Html.write (HtmlGen.item (Item.TagItem tg txt
        (pre ++ Attribute.Id v₁ :: (mid ++ Attribute.Id v₂ :: post)))) ""
      = ("<a " ++ ("id=\"" ++ v₁ ++ "\"") ++ ">") ++ "</a>"
          ++ ("<" ++ tg.name ++ " "
              ++ attributes_to_string
                  (pre ++ Attribute.Id v₁ :: (mid ++ Attribute.Id v₂ :: post))
              ++ ">")
          ++ Html.write (HtmlGen.text txt) ""
          ++ ("</" ++ tg.name ++ ">") := by
  intro tg txt v₁ v₂ pre mid post hpre
  have hfind := find_id_attribute_first pre v₁ (mid ++ Attribute.Id v₂ :: post) hpre
  have hitem : HtmlGen.item (Item.TagItem tg txt
      (pre ++ Attribute.Id v₁ :: (mid ++ Attribute.Id v₂ :: post)))
      = Html.Seq (Html.A v₁)
          (Html.TagH tg
            (attributes_to_string
              (pre ++ Attribute.Id v₁ :: (mid ++ Attribute.Id v₂ :: post)))
            (HtmlGen.text txt)) := by
    simp [HtmlGen.item, HtmlGen.tag, hfind]
  refine ⟨hitem, ?_, ?_⟩
  · rw [show (Attribute.Id v₁ :: (mid ++ Attribute.Id v₂ :: post))
        = [Attribute.Id v₁] ++ mid ++ ([Attribute.Id v₂] ++ post) from by simp]
    simp only [attributes_to_string_append, ← List.append_assoc]
    simp [attributes_to_string_append, attributes_to_string,
      String.append_assoc, String.append_empty]
  · rw [hitem]
    simp only [Html.write]
    rw [write_append (HtmlGen.text txt)]
    simp [String.append_assoc, String.empty_append]

/-- C10, witness: the theorem evaluated with a Role before the first Id and
a second Id after it. -/
theorem claim_C10_witness :
    HtmlGen.item (Item.TagItem ⟨"kbd"⟩ (Text.mk [Item.Word "x"])
        ([Attribute.Role "r"] ++ Attribute.Id "one" :: ([] ++ Attribute.Id "two" :: [])))
      = Html.Seq (Html.A "one")
          (Html.TagH ⟨"kbd"⟩
            (attributes_to_string
              ([Attribute.Role "r"] ++ Attribute.Id "one" :: ([] ++ Attribute.Id "two" :: [])))
            (HtmlGen.text (Text.mk [Item.Word "x"])))
    ∧ attributes_to_string
        ([Attribute.Role "r"] ++ Attribute.Id "one" :: ([] ++ Attribute.Id "two" :: []))
      = attributes_to_string [Attribute.Role "r"] ++ ("id=\"" ++ "one" ++ "\"")
          ++ attributes_to_string [] ++ ("id=\"" ++ "two" ++ "\"")
          ++ attributes_to_string []
    ∧ Html.write (HtmlGen.item (Item.TagItem ⟨"kbd"⟩ (Text.mk [Item.Word "x"])
        ([Attribute.Role "r"] ++ Attribute.Id "one" :: ([] ++ Attribute.Id "two" :: [])))) ""
      = ("<a " ++ ("id=\"" ++ "one" ++ "\"") ++ ">") ++ "</a>"
          ++ ("<" ++ (⟨"kbd"⟩ : Tag).name ++ " "
              ++ attributes_to_string
                  ([Attribute.Role "r"] ++ Attribute.Id "one" :: ([] ++ Attribute.Id "two" :: []))
              ++ ">")
          ++ Html.write (HtmlGen.text (Text.mk [Item.Word "x"])) ""
          ++ ("</" ++ (⟨"kbd"⟩ : Tag).name ++ ">") :=
  claim_C10_first_id_wins ⟨"kbd"⟩ (Text.mk [Item.Word "x"]) "one" "two"
    [Attribute.Role "r"] [] [] (by decide)

/-- Consuming bytes with no newline among them adds their count to the
column and leaves the line unchanged (and moves the cursor one step per
byte). -/
theorem advanceList_no_newline (bs : List Nat) :
    ∀ (st : LexState), (∀ b ∈ bs, b ≠ 10) →
    (Lexer.advanceList bs st).line = st.line
    ∧ (Lexer.advanceList bs st).column = st.column + bs.length
    ∧ (Lexer.advanceList bs st).bufferIndex = st.bufferIndex + bs.length := by
  induction bs with
  | nil => intro st h; simp [Lexer.advanceList]
  | cons b rest ih =>
    intro st h
    have hb : b ≠ 10 := h b (by simp)
    have hstep : Lexer.advanceList (b :: rest) st
        = Lexer.advanceList rest (Lexer.advance b st) := by
      simp [Lexer.advanceList, List.foldl_cons]
    obtain ⟨h1, h2, h3⟩ := ih (Lexer.advance b st) (fun x hx => h x (by simp [hx]))
    rw [hstep]
    refine ⟨?_, ?_, ?_⟩
    · rw [h1]; simp [Lexer.advance, hb]
    · rw [h2]; simp [Lexer.advance, hb]; omega
    · rw [h3]; simp [Lexer.advance]; omega

/-- C5: starting from any position, consuming k non-newline bytes through
`Lexer::advance` leaves the cursor at (line, column + k); consuming a
newline sets the column to 1 and increments the line by exactly one, and
bytes after it are tracked from that new baseline.  The embedding changes
line and column only inside `Lexer.advance`, one call per consumed byte,
mirroring the source where every consumption routes through
`Lexer::advance`. -/
theorem claim_C5_position_tracking :
    (∀ (st : LexState) (bs : List Nat), (∀ b ∈ bs, b ≠ 10) →
      (Lexer.advanceList bs st).line = st.line
      ∧ (Lexer.advanceList bs st).column = st.column + bs.length
      ∧ (Lexer.advanceList bs st).bufferIndex = st.bufferIndex + bs.length)
    ∧ (∀ st : LexState,
      (Lexer.advance 10 st).line = st.line + 1
      ∧ (Lexer.advance 10 st).column = 1
      ∧ (Lexer.advance 10 st).bufferIndex = st.bufferIndex + 1)
    ∧ (∀ (st : LexState) (bs : List Nat), (∀ b ∈ bs, b ≠ 10) →
      (Lexer.advanceList bs (Lexer.advance 10 st)).line = st.line + 1
      ∧ (Lexer.advanceList bs (Lexer.advance 10 st)).column = 1 + bs.length) := by
  refine ⟨fun st bs h => advanceList_no_newline bs st h, ?_, ?_⟩
  · intro st; simp [Lexer.advance]
  · intro st bs h
    obtain ⟨h1, h2, _⟩ := advanceList_no_newline bs (Lexer.advance 10 st) h
    constructor
    · rw [h1]; simp [Lexer.advance]
    · rw [h2]; simp [Lexer.advance]

/-- C5, witness: three non-newline bytes then a newline then one byte, from
the initial position, evaluated concretely through the theorem. -/
theorem claim_C5_witness :
    (Lexer.advanceList [97, 98, 99] (Lexer.new [])).line = (Lexer.new []).line
    ∧ (Lexer.advanceList [97, 98, 99] (Lexer.new [])).column
        = (Lexer.new []).column + ([97, 98, 99] : List Nat).length
    ∧ (Lexer.advanceList [98] (Lexer.advance 10 (Lexer.new []))).line
        = (Lexer.new []).line + 1
    ∧ (Lexer.advanceList [98] (Lexer.advance 10 (Lexer.new []))).column
        = 1 + ([98] : List Nat).length :=
  ⟨(claim_C5_position_tracking.1 (Lexer.new []) [97, 98, 99] (by decide)).1,
   (claim_C5_position_tracking.1 (Lexer.new []) [97, 98, 99] (by decide)).2.1,
   (claim_C5_position_tracking.2.2 (Lexer.new []) [98] (by decide)).1,
   (claim_C5_position_tracking.2.2 (Lexer.new []) [98] (by decide)).2⟩

/-- C8: the iterator's `next` always returns `Some` of the result of
`token` — it never terminates the stream in the iterator sense — and on an
exhausted lexer state (empty reader, cursor at or past the filled length)
the pull inside is `Err(Eof)`, so end of input is observable only as
`Some(Err(Eof))`. -/
theorem claim_C8_next_always_some :
    (∀ (fuel : Nat) (st : LexState), ∃ r, Lexer.next fuel st = some r)
    ∧ ∀ (fuel : Nat) (st : LexState),
        st.reader = [] → st.bufferSize ≤ st.bufferIndex → 0 < fuel →
        (Lexer.next fuel st).map (fun r => r.map Prod.fst)
          = some (some (Except.error ErrorKind.Eof)) := by
  constructor
  · intro fuel st; exact ⟨Lexer.token fuel st, rfl⟩
  · intro fuel st h1 h2 h3
    cases fuel with
    | zero => omega
    | succ f =>
      simp [Lexer.next, Lexer.token, Lexer.readIfNeeded, h1, h2]

/-- C8, witness: the exhausted-state conjunct applied to a fresh lexer over
the empty input. -/
theorem claim_C8_witness :
    (Lexer.next 1 (Lexer.new [])).map (fun r => r.map Prod.fst)
      = some (some (Except.error ErrorKind.Eof)) :=
  claim_C8_next_always_some.2 1 (Lexer.new []) rfl (by decide) (by decide)

/-- C2: on the input `////\nhidden\n////\nword` the very first pull fails
with Eof after consuming the entire input, instead of yielding a newline
token and then the word `word`.  The delimiter-search loop of
`Lexer::comment` checks the four-byte window at the cursor only when the
cursor rests on the newline that ends a line (the loop body first eats that
newline and then skips to the next end of line), so the window always
starts with the newline byte and can never equal `////`; the loop therefore
consumes `hidden`, the closing `////` line and `word` alike until the
reader is exhausted. -/
theorem claim_C2_comment_never_closes :
    (Lexer.tokenOn (Lexer.strBytes "////\nhidden\n////\nword")).map Prod.fst
      = some (Except.error ErrorKind.Eof)
    ∧ (Lexer.tokenOn (Lexer.strBytes "////\nhidden\n////\nword")).map Prod.fst
      ≠ some (Except.ok Token.NewLine) :=
  ⟨by decide, by decide⟩

/-- C3: a reachable comparison of the delimiter window is not bounded by
the valid buffered region.  On the input `////\nab` (7 bytes, loaded in one
read so buffer_size = 7), the first pull enters the comment loop — the
state handed to `comment` is exactly the post-refill state, since `token`
reaches it by `read_if_needed` followed by a state-preserving
`current_char` — and the loop's ghost trace records a comparison at
buffer_index 4, where the four-byte window spans indices 4..8 and 8
exceeds buffer_size 7: the comparison reads a byte outside the valid
region (in Rust, a stale array byte; with buffer_index above 4092 the same
unbounded window would index past the 4096-byte array and panic). -/
theorem claim_C3_window_out_of_bounds :
    ((Lexer.comment (Lexer.fuelFor (Lexer.strBytes "////\nab"))
        (Lexer.readIfNeeded (Lexer.new (Lexer.strBytes "////\nab"))).2).map
      (fun r => r.2.2)) = some [(4, 7)]
    ∧ 7 < 4 + 4
    ∧ (Lexer.tokenOn (Lexer.strBytes "////\nab")).map Prod.fst
      = some (Except.error ErrorKind.Eof) :=
  ⟨by decide, by decide, by decide⟩

/-- C4, counterexample: the input `ab` consists solely of delimiter-free
bytes, yet pulling yields no Word token at all — the greedy loop of
`Lexer::word` hits the end of input, `advance_while` propagates `Err(Eof)`
through the `?` operator, and the consumed bytes are discarded. -/
theorem claim_C4_counterexample :
    (Lexer.tokenOn (Lexer.strBytes "ab")).map Prod.fst
      = some (Except.error ErrorKind.Eof)
    ∧ (Lexer.tokenOn (Lexer.strBytes "ab")).map Prod.fst
      ≠ some (Except.ok (Token.Word (Lexer.strBytes "ab"))) :=
  ⟨by decide, by decide⟩

/-- C6, counterexample: when the input ends before the three delimiter
bytes are complete (`<<` or `''`), the pull fails with Eof, not with an
UnexpectedChar error carrying an actual byte, an expected byte and a
position, as the claim demands for every deviation. -/
theorem claim_C6_counterexample :
    (Lexer.tokenOn (Lexer.strBytes "<<")).map Prod.fst
      = some (Except.error ErrorKind.Eof)
    ∧ (Lexer.tokenOn (Lexer.strBytes "''")).map Prod.fst
      = some (Except.error ErrorKind.Eof) :=
  ⟨by decide, by decide⟩

/-- `read_if_needed` is a no-op while buffered bytes remain. -/
theorem readIfNeeded_noop (st : LexState) (h : st.bufferIndex < st.bufferSize) :
    Lexer.readIfNeeded st = (Except.ok (), st) := by
  unfold Lexer.readIfNeeded
  rw [if_neg (by omega)]

/-- `current_char` returns the byte under the cursor without state change
while buffered bytes remain. -/
theorem currentChar_noop (st : LexState) (h : st.bufferIndex < st.bufferSize) :
    Lexer.currentChar st = (Except.ok (st.buffer st.bufferIndex), st) := by
  unfold Lexer.currentChar
  rw [readIfNeeded_noop st h]

/-- `read_if_needed` on an exhausted reader fails with Eof and zeroes the
filled length. -/
theorem readIfNeeded_eof (st : LexState) (h1 : st.reader = [])
    (h2 : st.bufferSize ≤ st.bufferIndex) :
    Lexer.readIfNeeded st = (Except.error ErrorKind.Eof, { st with bufferSize := 0 }) := by
  unfold Lexer.readIfNeeded
  rw [if_pos h2]
  simp [h1]

/-- One `eat` step while buffered bytes remain: consume on a match, fail
with UnexpectedChar at the current position otherwise. -/
theorem eat_step (expected : Nat) (st : LexState) (h : st.bufferIndex < st.bufferSize) :
    Lexer.eat expected st =
      if st.buffer st.bufferIndex = expected then
        (Except.ok (), Lexer.advance (st.buffer st.bufferIndex) st)
      else
        (Except.error (ErrorKind.UnexpectedChar (st.buffer st.bufferIndex)
          [expected] (Lexer.pos st)), st) := by
  unfold Lexer.eat
  simp only [readIfNeeded_noop st h, currentChar_noop st h]

/-- `advance_while` over k buffered non-newline bytes satisfying the
predicate, stopped by a byte that does not: it consumes exactly those k
bytes, moving the cursor and the column by k. -/
theorem advanceWhile_run (p : Nat → Bool) :
    ∀ (k fuel : Nat) (st : LexState),
      k + 1 ≤ fuel →
      st.bufferIndex + k < st.bufferSize →
      (∀ j, j < k → p (st.buffer (st.bufferIndex + j)) = true
        ∧ st.buffer (st.bufferIndex + j) ≠ 10) →
      p (st.buffer (st.bufferIndex + k)) = false →
      Lexer.advanceWhile fuel p st =
        some (Except.ok (), LexState.mk st.buffer (st.bufferIndex + k)
          st.bufferSize (st.column + k) st.line st.reader) := by
  intro k
  induction k with
  | zero =>
    intro fuel st hf hlt hall hp
    cases fuel with
    | zero => omega
    | succ f =>
      have hno : st.bufferIndex < st.bufferSize := by omega
      simp only [Lexer.advanceWhile, readIfNeeded_noop st hno, currentChar_noop st hno]
      rw [if_neg (by simp at hp ⊢; simpa using hp)]
      simp
  | succ k ih =>
    intro fuel st hf hlt hall hp
    cases fuel with
    | zero => omega
    | succ f =>
      have hno : st.bufferIndex < st.bufferSize := by omega
      have h0 := hall 0 (by omega)
      have hpt : p (st.buffer st.bufferIndex) = true := by simpa using h0.1
      have hne10 : st.buffer st.bufferIndex ≠ 10 := by simpa using h0.2
      simp only [Lexer.advanceWhile, readIfNeeded_noop st hno, currentChar_noop st hno]
      rw [if_pos hpt]
      have hrec := ih f (Lexer.advance (st.buffer st.bufferIndex) st)
        (by omega)
        (by simp [Lexer.advance]; omega)
        (by
          intro j hj
          have := hall (j + 1) (by omega)
          simp only [Lexer.advance]
          constructor
          · have e : st.bufferIndex + 1 + j = st.bufferIndex + (j + 1) := by omega
            rw [e]; exact this.1
          · have e : st.bufferIndex + 1 + j = st.bufferIndex + (j + 1) := by omega
            rw [e]; exact this.2)
        (by
          simp only [Lexer.advance]
          have e : st.bufferIndex + 1 + k = st.bufferIndex + (k + 1) := by omega
          rw [e]; exact hp)
      rw [hrec]
      simp [Lexer.advance, hne10]
      constructor
      · omega
      · omega

/-- `advance_while` that consumes the k remaining buffered bytes with an
exhausted reader: the final refill fails and Err(Eof) is returned with the
filled length zeroed. -/
theorem advanceWhile_eof (p : Nat → Bool) :
    ∀ (k fuel : Nat) (st : LexState),
      k + 1 ≤ fuel →
      st.bufferIndex + k = st.bufferSize →
      st.reader = [] →
      (∀ j, j < k → p (st.buffer (st.bufferIndex + j)) = true
        ∧ st.buffer (st.bufferIndex + j) ≠ 10) →
      Lexer.advanceWhile fuel p st =
        some (Except.error ErrorKind.Eof, LexState.mk st.buffer
          (st.bufferIndex + k) 0 (st.column + k) st.line st.reader) := by
  intro k
  induction k with
  | zero =>
    intro fuel st hf hsz hrd hall
    cases fuel with
    | zero => omega
    | succ f =>
      have heof := readIfNeeded_eof st hrd (by omega)
      simp only [Lexer.advanceWhile, heof]
      simp
  | succ k ih =>
    intro fuel st hf hsz hrd hall
    cases fuel with
    | zero => omega
    | succ f =>
      have hno : st.bufferIndex < st.bufferSize := by omega
      have h0 := hall 0 (by omega)
      have hpt : p (st.buffer st.bufferIndex) = true := by simpa using h0.1
      have hne10 : st.buffer st.bufferIndex ≠ 10 := by simpa using h0.2
      simp only [Lexer.advanceWhile, readIfNeeded_noop st hno, currentChar_noop st hno]
      rw [if_pos hpt]
      have hrec := ih f (Lexer.advance (st.buffer st.bufferIndex) st)
        (by omega)
        (by simp [Lexer.advance]; omega)
        (by simp [Lexer.advance, hrd])
        (by
          intro j hj
          have := hall (j + 1) (by omega)
          simp only [Lexer.advance]
          have e : st.bufferIndex + 1 + j = st.bufferIndex + (j + 1) := by omega
          rw [e]; exact this)
      rw [hrec]
      simp [Lexer.advance, hne10]
      constructor
      · omega
      · omega

/-- The first refill of a fresh lexer over an input that fits the buffer
loads the whole input at once. -/
theorem readIfNeeded_new (input : List Nat) (h1 : input ≠ [])
    (h2 : input.length ≤ BUFFER_SIZE) :
    Lexer.readIfNeeded (Lexer.new input) =
      (Except.ok (), LexState.mk
        (fun i => if i < input.length then input.getD i 0 else 0)
        0 input.length 1 1 []) := by
  unfold Lexer.readIfNeeded Lexer.new
  rw [if_pos (by simp)]
  have hn : min input.length BUFFER_SIZE = input.length := min_eq_left h2
  have hz : ¬ (min input.length BUFFER_SIZE = 0) := by
    rw [hn]
    simpa using h1
  rw [if_neg hz]
  simp only [hn]
  congr 1
  simp [List.drop_length]

/-- Reading a list back out of its own indices reproduces it. -/
theorem range_map_getD (l : List Nat) :
    (List.range l.length).map (fun j => l.getD j 0) = l := by
  induction l with
  | nil => simp
  | cons x xs ih =>
    rw [List.length_cons, List.range_succ_eq_map]
    simp only [List.map_cons, List.map_map, Function.comp_def, List.getD_cons_zero,
      List.getD_cons_succ]
    rw [ih]

/-- A pull on an input whose bytes up to a terminating newline are word
bytes (and whose first byte is none of the specially dispatched ones)
yields the Word token holding exactly those bytes; without the terminating
newline the same pull fails with Eof and the consumed bytes are lost. -/
theorem tokenOn_word_run (r : List Nat) (hrlen : 0 < r.length)
    (hlen : r.length ≤ 4095)
    (hw : ∀ j, j < r.length → Lexer.wordPred (r.getD j 0) = true ∧ r.getD j 0 ≠ 10)
    (h47 : r.getD 0 0 ≠ 47) (h60 : r.getD 0 0 ≠ 60) (h39 : r.getD 0 0 ≠ 39)
    (h13 : r.getD 0 0 ≠ 13) (h35 : r.getD 0 0 ≠ 35) (h32 : r.getD 0 0 ≠ 32)
    (h10 : r.getD 0 0 ≠ 10) :
    (Lexer.tokenOn (r ++ [10])).map Prod.fst = some (Except.ok (Token.Word r))
    ∧ (Lexer.tokenOn r).map Prod.fst = some (Except.error ErrorKind.Eof) := by
  have hrne : r ≠ [] := by
    cases r with
    | nil => simp at hrlen
    | cons a l => exact List.cons_ne_nil a l
  constructor
  · -- run terminated by a newline: the Word token is produced, byte-identical
    obtain ⟨f, hf⟩ : ∃ f, Lexer.fuelFor (r ++ [10]) = f + 1 :=
      ⟨(r ++ [10]).length + BUFFER_SIZE + 7, rfl⟩
    have hflarge : r.length + 1 ≤ f := by
      have h8 : Lexer.fuelFor (r ++ [10]) = (r ++ [10]).length + BUFFER_SIZE + 8 := rfl
      rw [h8] at hf
      simp only [List.length_append, List.length_cons, List.length_nil, BUFFER_SIZE] at hf
      omega
    have hrd := readIfNeeded_new (r ++ [10]) (by simp [hrne])
      (by simp only [List.length_append, List.length_cons, List.length_nil, BUFFER_SIZE]; omega)
    let st₀ : LexState := LexState.mk
      (fun i => if i < (r ++ [10]).length then (r ++ [10]).getD i 0 else 0)
      0 ((r ++ [10]).length) 1 1 []
    have hlt0 : st₀.bufferIndex < st₀.bufferSize := by
      show 0 < (r ++ [10]).length
      simp only [List.length_append, List.length_cons, List.length_nil]
      omega
    have hB0 : st₀.buffer st₀.bufferIndex = r.getD 0 0 := by
      show (if 0 < (r ++ [10]).length then (r ++ [10]).getD 0 0 else 0) = r.getD 0 0
      rw [if_pos (by simp only [List.length_append, List.length_cons, List.length_nil]; omega)]
      exact List.getD_append r [10] 0 0 hrlen
    have hcc : Lexer.currentChar st₀ = (Except.ok (r.getD 0 0), st₀) := by
      rw [currentChar_noop st₀ hlt0, hB0]
    unfold Lexer.tokenOn
    rw [hf]
    simp only [Lexer.token]
    rw [show Lexer.readIfNeeded (Lexer.new (r ++ [10])) = (Except.ok (), st₀) from hrd]
    simp only [hcc]
    rw [if_neg h47, if_neg h60, if_neg h39, if_neg h10, if_neg h13, if_neg h35, if_neg h32]
    unfold Lexer.word
    have hrun := advanceWhile_run Lexer.wordPred r.length f st₀
      (by omega)
      (by
        show 0 + r.length < (r ++ [10]).length
        simp only [List.length_append, List.length_cons, List.length_nil]
        omega)
      (by
        intro j hj
        have hb : st₀.buffer (st₀.bufferIndex + j) = r.getD j 0 := by
          show (if 0 + j < (r ++ [10]).length then (r ++ [10]).getD (0 + j) 0 else 0)
            = r.getD j 0
          rw [if_pos (by simp only [List.length_append, List.length_cons, List.length_nil]; omega)]
          simp only [Nat.zero_add]
          exact List.getD_append r [10] 0 j hj
        rw [hb]
        exact hw j hj)
      (by
        have hb : st₀.buffer (st₀.bufferIndex + r.length) = 10 := by
          show (if 0 + r.length < (r ++ [10]).length then (r ++ [10]).getD (0 + r.length) 0 else 0)
            = 10
          rw [if_pos (by simp only [List.length_append, List.length_cons, List.length_nil]; omega)]
          simp only [Nat.zero_add]
          rw [List.getD_append_right r [10] 0 r.length (le_refl _)]
          simp
        rw [hb]
        decide)
    simp only [hrun]
    rw [if_neg (by
      show ¬ (st₀.bufferIndex + r.length = st₀.bufferIndex)
      show ¬ ((0 : Nat) + r.length = 0)
      omega)]
    have hslice : Lexer.bufSlice
        (LexState.mk st₀.buffer (st₀.bufferIndex + r.length) st₀.bufferSize
          (st₀.column + r.length) st₀.line st₀.reader)
        st₀.bufferIndex (st₀.bufferIndex + r.length) = r := by
      show (List.range (st₀.bufferIndex + r.length - st₀.bufferIndex)).map
        (fun j => st₀.buffer (st₀.bufferIndex + j)) = r
      have e : st₀.bufferIndex + r.length - st₀.bufferIndex = r.length := by
        show (0 : Nat) + r.length - 0 = r.length
        omega
      rw [e]
      calc (List.range r.length).map (fun j => st₀.buffer (st₀.bufferIndex + j))
          = (List.range r.length).map (fun j => r.getD j 0) := by
            apply List.map_congr_left
            intro j hj
            have hjlt : j < r.length := List.mem_range.mp hj
            show (if 0 + j < (r ++ [10]).length then (r ++ [10]).getD (0 + j) 0 else 0)
              = r.getD j 0
            rw [if_pos (by simp only [List.length_append, List.length_cons, List.length_nil]; omega)]
            simp only [Nat.zero_add]
            exact List.getD_append r [10] 0 j hjlt
        _ = r := range_map_getD r
    rw [hslice]
    simp
  · -- unterminated run: the consumed word is discarded by Err(Eof)
    obtain ⟨f, hf⟩ : ∃ f, Lexer.fuelFor r = f + 1 :=
      ⟨r.length + BUFFER_SIZE + 7, rfl⟩
    have hflarge : r.length + 1 ≤ f := by
      have h8 : Lexer.fuelFor r = r.length + BUFFER_SIZE + 8 := rfl
      rw [h8] at hf
      simp only [BUFFER_SIZE] at hf
      omega
    have hrd := readIfNeeded_new r hrne (by simp only [BUFFER_SIZE]; omega)
    let st₀ : LexState := LexState.mk
      (fun i => if i < r.length then r.getD i 0 else 0) 0 (r.length) 1 1 []
    have hlt0 : st₀.bufferIndex < st₀.bufferSize := by
      show 0 < r.length
      omega
    have hB0 : st₀.buffer st₀.bufferIndex = r.getD 0 0 := by
      show (if 0 < r.length then r.getD 0 0 else 0) = r.getD 0 0
      rw [if_pos hrlen]
    have hcc : Lexer.currentChar st₀ = (Except.ok (r.getD 0 0), st₀) := by
      rw [currentChar_noop st₀ hlt0, hB0]
    unfold Lexer.tokenOn
    rw [hf]
    simp only [Lexer.token]
    rw [show Lexer.readIfNeeded (Lexer.new r) = (Except.ok (), st₀) from hrd]
    simp only [hcc]
    rw [if_neg h47, if_neg h60, if_neg h39, if_neg h10, if_neg h13, if_neg h35, if_neg h32]
    unfold Lexer.word
    have hrun := advanceWhile_eof Lexer.wordPred r.length f st₀
      (by omega)
      (by
        show 0 + r.length = r.length
        omega)
      (by rfl)
      (by
        intro j hj
        have hb : st₀.buffer (st₀.bufferIndex + j) = r.getD j 0 := by
          show (if 0 + j < r.length then r.getD (0 + j) 0 else 0) = r.getD j 0
          rw [if_pos (by omega)]
          simp only [Nat.zero_add]
        rw [hb]
        exact hw j hj)
    simp only [hrun]
    simp

/-- C4, amended: for every delimiter-free byte run that does not begin
with a slash, a less-than sign or an apostrophe (those bytes dispatch to
comment or triple-delimiter parsing before word parsing) and fits the
4096-byte buffer together with its terminator, pulling on the run followed
by a newline yields exactly one Word token whose byte content is identical
to the run; on the run alone (a byte source solely of delimiter-free
bytes, as the original claim has it) the pull instead fails with Eof and
no Word token is ever produced. -/
theorem claim_C4_amended :
    ∀ (c₀ : Nat) (rtail : List Nat),
      (∀ b ∈ c₀ :: rtail, Lexer.delimiters.contains b = false ∧ b < 256) →
      c₀ ≠ 47 → c₀ ≠ 60 → c₀ ≠ 39 →
      rtail.length ≤ 4094 →
      (Lexer.tokenOn ((c₀ :: rtail) ++ [10])).map Prod.fst
        = some (Except.ok (Token.Word (c₀ :: rtail)))
      ∧ (Lexer.tokenOn (c₀ :: rtail)).map Prod.fst
        = some (Except.error ErrorKind.Eof) := by
  intro c₀ rtail hbytes h47 h60 h39 hlen
  have hbyte : ∀ b : Nat, Lexer.delimiters.contains b = false →
      Lexer.wordPred b = true ∧ b ≠ 10 ∧ b ≠ 13 ∧ b ≠ 35 ∧ b ≠ 32 := by
    intro b hb
    refine ⟨by simp only [Lexer.wordPred, hb, Bool.not_false], ?_, ?_, ?_, ?_⟩ <;>
      (intro he; subst he; exact absurd hb (by decide))
  have hc₀ := hbyte c₀ (hbytes c₀ (List.mem_cons_self c₀ rtail)).1
  have hget0 : (c₀ :: rtail).getD 0 0 = c₀ := rfl
  refine tokenOn_word_run (c₀ :: rtail) (by simp) (by simp; omega) ?_ ?_ ?_ ?_ ?_ ?_ ?_ ?_
  · intro j hj
    have hmem : (c₀ :: rtail).getD j 0 ∈ c₀ :: rtail := by
      rw [List.getD_eq_getElem _ 0 hj]
      exact List.getElem_mem hj
    have := hbyte _ (hbytes _ hmem).1
    exact ⟨this.1, this.2.1⟩
  · rw [hget0]; exact h47
  · rw [hget0]; exact h60
  · rw [hget0]; exact h39
  · rw [hget0]; exact hc₀.2.2.1
  · rw [hget0]; exact hc₀.2.2.2.1
  · rw [hget0]; exact hc₀.2.2.2.2
  · rw [hget0]; exact hc₀.2.1

/-- C4, witness: the amended theorem at the run `ab`. -/
theorem claim_C4_witness :
    (Lexer.tokenOn (([97] ++ [98]) ++ [10])).map Prod.fst
      = some (Except.ok (Token.Word [97, 98]))
    ∧ (Lexer.tokenOn [97, 98]).map Prod.fst
      = some (Except.error ErrorKind.Eof) :=
  claim_C4_amended 97 [98] (by decide) (by decide) (by decide) (by decide) (by decide)

/-- `triple_lt` on a state at the start of a buffered window `<`, c₂, c₃:
success exactly when c₂ and c₃ are also `<`, otherwise UnexpectedChar
naming the offending byte and its position. -/
theorem tripleLt_at (B : Nat → Nat) (N : Nat) (rd : List Nat) (c₂ c₃ : Nat)
    (hN : 3 ≤ N) (hB0 : B 0 = 60) (hB1 : B 1 = c₂) (hB2 : B 2 = c₃) :
    Lexer.tripleLt (LexState.mk B 0 N 1 1 rd)
      = if c₂ = 60 then
          if c₃ = 60 then (Except.ok Token.TripleLt, LexState.mk B 3 N 4 1 rd)
          else (Except.error (ErrorKind.UnexpectedChar c₃ [60] ⟨1, 3⟩),
            LexState.mk B 2 N 3 1 rd)
        else (Except.error (ErrorKind.UnexpectedChar c₂ [60] ⟨1, 2⟩),
          LexState.mk B 1 N 2 1 rd) := by
  have h0N : (LexState.mk B 0 N 1 1 rd).bufferIndex
      < (LexState.mk B 0 N 1 1 rd).bufferSize := by show 0 < N; omega
  have h1N : (LexState.mk B 1 N 2 1 rd).bufferIndex
      < (LexState.mk B 1 N 2 1 rd).bufferSize := by show 1 < N; omega
  have h2N : (LexState.mk B 2 N 3 1 rd).bufferIndex
      < (LexState.mk B 2 N 3 1 rd).bufferSize := by show 2 < N; omega
  by_cases hc₂ : c₂ = 60
  · subst hc₂
    by_cases hc₃ : c₃ = 60
    · subst hc₃
      rw [if_pos rfl, if_pos rfl]
      unfold Lexer.tripleLt
      rw [eat_step 60 _ h0N]
      simp only [hB0, if_pos rfl, Lexer.advance]
      norm_num
      rw [eat_step 60 _ h1N]
      simp only [hB1, if_pos rfl, Lexer.advance]
      norm_num
      rw [eat_step 60 _ h2N]
      simp only [hB2, if_pos rfl, Lexer.advance]
      norm_num
    · rw [if_pos rfl, if_neg hc₃]
      unfold Lexer.tripleLt
      rw [eat_step 60 _ h0N]
      simp only [hB0, if_pos rfl, Lexer.advance]
      norm_num
      rw [eat_step 60 _ h1N]
      simp only [hB1, if_pos rfl, Lexer.advance]
      norm_num
      rw [eat_step 60 _ h2N]
      simp only [hB2, if_neg hc₃]
      rfl
  · rw [if_neg hc₂]
    unfold Lexer.tripleLt
    rw [eat_step 60 _ h0N]
    simp only [hB0, if_pos rfl, Lexer.advance]
    norm_num
    rw [eat_step 60 _ h1N]
    simp only [hB1, if_neg hc₂]
    rfl

/-- `triple_apos`, the apostrophe counterpart of `tripleLt_at`. -/
theorem tripleApos_at (B : Nat → Nat) (N : Nat) (rd : List Nat) (c₂ c₃ : Nat)
    (hN : 3 ≤ N) (hB0 : B 0 = 39) (hB1 : B 1 = c₂) (hB2 : B 2 = c₃) :
    Lexer.tripleApos (LexState.mk B 0 N 1 1 rd)
      = if c₂ = 39 then
          if c₃ = 39 then (Except.ok Token.TripleApos, LexState.mk B 3 N 4 1 rd)
          else (Except.error (ErrorKind.UnexpectedChar c₃ [39] ⟨1, 3⟩),
            LexState.mk B 2 N 3 1 rd)
        else (Except.error (ErrorKind.UnexpectedChar c₂ [39] ⟨1, 2⟩),
          LexState.mk B 1 N 2 1 rd) := by
  have h0N : (LexState.mk B 0 N 1 1 rd).bufferIndex
      < (LexState.mk B 0 N 1 1 rd).bufferSize := by show 0 < N; omega
  have h1N : (LexState.mk B 1 N 2 1 rd).bufferIndex
      < (LexState.mk B 1 N 2 1 rd).bufferSize := by show 1 < N; omega
  have h2N : (LexState.mk B 2 N 3 1 rd).bufferIndex
      < (LexState.mk B 2 N 3 1 rd).bufferSize := by show 2 < N; omega
  by_cases hc₂ : c₂ = 39
  · subst hc₂
    by_cases hc₃ : c₃ = 39
    · subst hc₃
      rw [if_pos rfl, if_pos rfl]
      unfold Lexer.tripleApos
      rw [eat_step 39 _ h0N]
      simp only [hB0, if_pos rfl, Lexer.advance]
      norm_num
      rw [eat_step 39 _ h1N]
      simp only [hB1, if_pos rfl, Lexer.advance]
      norm_num
      rw [eat_step 39 _ h2N]
      simp only [hB2, if_pos rfl, Lexer.advance]
      norm_num
    · rw [if_pos rfl, if_neg hc₃]
      unfold Lexer.tripleApos
      rw [eat_step 39 _ h0N]
      simp only [hB0, if_pos rfl, Lexer.advance]
      norm_num
      rw [eat_step 39 _ h1N]
      simp only [hB1, if_pos rfl, Lexer.advance]
      norm_num
      rw [eat_step 39 _ h2N]
      simp only [hB2, if_neg hc₃]
      rfl
  · rw [if_neg hc₂]
    unfold Lexer.tripleApos
    rw [eat_step 39 _ h0N]
    simp only [hB0, if_pos rfl, Lexer.advance]
    norm_num
    rw [eat_step 39 _ h1N]
    simp only [hB1, if_neg hc₂]
    rfl

/-- C6, amended: when the current byte is `<` (resp. an apostrophe), the
pull succeeds with the triple token exactly when the next two bytes repeat
it; a differing byte fails with UnexpectedChar carrying that byte, the
expected byte and the position of the offending byte ((1,2) or (1,3) from
the start of input); but when the input ends before the three bytes are
complete the failure is Eof, not UnexpectedChar.  The result of the single
`token` call is returned as is — no retry. -/
theorem claim_C6_amended :
    (∀ (c₂ c₃ : Nat) (rest : List Nat), c₂ < 256 → c₃ < 256 →
      rest.length ≤ 4093 →
      (Lexer.tokenOn (60 :: c₂ :: c₃ :: rest)).map Prod.fst
        = some (if c₂ = 60 then
                  if c₃ = 60 then Except.ok Token.TripleLt
                  else Except.error (ErrorKind.UnexpectedChar c₃ [60] ⟨1, 3⟩)
                else Except.error (ErrorKind.UnexpectedChar c₂ [60] ⟨1, 2⟩))
      ∧ (Lexer.tokenOn (39 :: c₂ :: c₃ :: rest)).map Prod.fst
        = some (if c₂ = 39 then
                  if c₃ = 39 then Except.ok Token.TripleApos
                  else Except.error (ErrorKind.UnexpectedChar c₃ [39] ⟨1, 3⟩)
                else Except.error (ErrorKind.UnexpectedChar c₂ [39] ⟨1, 2⟩)))
    ∧ (Lexer.tokenOn [60]).map Prod.fst = some (Except.error ErrorKind.Eof)
    ∧ (Lexer.tokenOn [60, 60]).map Prod.fst = some (Except.error ErrorKind.Eof)
    ∧ (Lexer.tokenOn [39]).map Prod.fst = some (Except.error ErrorKind.Eof)
    ∧ (Lexer.tokenOn [39, 39]).map Prod.fst = some (Except.error ErrorKind.Eof) := by
  refine ⟨?_, by decide, by decide, by decide, by decide⟩
  intro c₂ c₃ rest hc₂b hc₃b hrest
  constructor
  · obtain ⟨f, hf⟩ : ∃ f, Lexer.fuelFor (60 :: c₂ :: c₃ :: rest) = f + 1 :=
      ⟨(60 :: c₂ :: c₃ :: rest).length + BUFFER_SIZE + 7, rfl⟩
    have hrd := readIfNeeded_new (60 :: c₂ :: c₃ :: rest) (by simp)
      (by simp only [List.length_cons, BUFFER_SIZE]; omega)
    let st₀ : LexState := LexState.mk
      (fun i => if i < (60 :: c₂ :: c₃ :: rest).length
        then (60 :: c₂ :: c₃ :: rest).getD i 0 else 0)
      0 ((60 :: c₂ :: c₃ :: rest).length) 1 1 []
    have hN3 : 3 ≤ st₀.bufferSize := by
      show 3 ≤ (60 :: c₂ :: c₃ :: rest).length
      simp only [List.length_cons]
      omega
    have hlt0 : st₀.bufferIndex < st₀.bufferSize := by
      show 0 < (60 :: c₂ :: c₃ :: rest).length
      simp only [List.length_cons]
      omega
    have hB0 : st₀.buffer 0 = 60 := by
      show (if (0 : Nat) < (60 :: c₂ :: c₃ :: rest).length
        then (60 :: c₂ :: c₃ :: rest).getD 0 0 else 0) = 60
      rw [if_pos (by simp only [List.length_cons]; omega)]
      rfl
    have hB1 : st₀.buffer 1 = c₂ := by
      show (if (1 : Nat) < (60 :: c₂ :: c₃ :: rest).length
        then (60 :: c₂ :: c₃ :: rest).getD 1 0 else 0) = c₂
      rw [if_pos (by simp only [List.length_cons]; omega)]
      rfl
    have hB2 : st₀.buffer 2 = c₃ := by
      show (if (2 : Nat) < (60 :: c₂ :: c₃ :: rest).length
        then (60 :: c₂ :: c₃ :: rest).getD 2 0 else 0) = c₃
      rw [if_pos (by simp only [List.length_cons]; omega)]
      rfl
    have hcc : Lexer.currentChar st₀ = (Except.ok 60, st₀) := by
      rw [currentChar_noop st₀ hlt0]
      rw [show st₀.buffer st₀.bufferIndex = 60 from hB0]
    have hrd₀ : Lexer.readIfNeeded (Lexer.new (60 :: c₂ :: c₃ :: rest))
        = (Except.ok (), st₀) := hrd
    unfold Lexer.tokenOn
    rw [hf]
    simp only [Lexer.token, hrd₀, hcc]
    simp only [if_true]
    have htr : Lexer.tripleLt st₀
        = if c₂ = 60 then
            if c₃ = 60 then (Except.ok Token.TripleLt,
              LexState.mk st₀.buffer 3 st₀.bufferSize 4 1 st₀.reader)
            else (Except.error (ErrorKind.UnexpectedChar c₃ [60] ⟨1, 3⟩),
              LexState.mk st₀.buffer 2 st₀.bufferSize 3 1 st₀.reader)
          else (Except.error (ErrorKind.UnexpectedChar c₂ [60] ⟨1, 2⟩),
            LexState.mk st₀.buffer 1 st₀.bufferSize 2 1 st₀.reader) :=
      tripleLt_at st₀.buffer st₀.bufferSize st₀.reader c₂ c₃ hN3 hB0 hB1 hB2
    rw [htr]
    by_cases hc₂ : c₂ = 60 <;> by_cases hc₃ : c₃ = 60 <;> simp [hc₂, hc₃]
  · obtain ⟨f, hf⟩ : ∃ f, Lexer.fuelFor (39 :: c₂ :: c₃ :: rest) = f + 1 :=
      ⟨(39 :: c₂ :: c₃ :: rest).length + BUFFER_SIZE + 7, rfl⟩
    have hrd := readIfNeeded_new (39 :: c₂ :: c₃ :: rest) (by simp)
      (by simp only [List.length_cons, BUFFER_SIZE]; omega)
    let st₀ : LexState := LexState.mk
      (fun i => if i < (39 :: c₂ :: c₃ :: rest).length
        then (39 :: c₂ :: c₃ :: rest).getD i 0 else 0)
      0 ((39 :: c₂ :: c₃ :: rest).length) 1 1 []
    have hN3 : 3 ≤ st₀.bufferSize := by
      show 3 ≤ (39 :: c₂ :: c₃ :: rest).length
      simp only [List.length_cons]
      omega
    have hlt0 : st₀.bufferIndex < st₀.bufferSize := by
      show 0 < (39 :: c₂ :: c₃ :: rest).length
      simp only [List.length_cons]
      omega
    have hB0 : st₀.buffer 0 = 39 := by
      show (if (0 : Nat) < (39 :: c₂ :: c₃ :: rest).length
        then (39 :: c₂ :: c₃ :: rest).getD 0 0 else 0) = 39
      rw [if_pos (by simp only [List.length_cons]; omega)]
      rfl
    have hB1 : st₀.buffer 1 = c₂ := by
      show (if (1 : Nat) < (39 :: c₂ :: c₃ :: rest).length
        then (39 :: c₂ :: c₃ :: rest).getD 1 0 else 0) = c₂
      rw [if_pos (by simp only [List.length_cons]; omega)]
      rfl
    have hB2 : st₀.buffer 2 = c₃ := by
      show (if (2 : Nat) < (39 :: c₂ :: c₃ :: rest).length
        then (39 :: c₂ :: c₃ :: rest).getD 2 0 else 0) = c₃
      rw [if_pos (by simp only [List.length_cons]; omega)]
      rfl
    have hcc : Lexer.currentChar st₀ = (Except.ok 39, st₀) := by
      rw [currentChar_noop st₀ hlt0]
      rw [show st₀.buffer st₀.bufferIndex = 39 from hB0]
    have hrd₀ : Lexer.readIfNeeded (Lexer.new (39 :: c₂ :: c₃ :: rest))
        = (Except.ok (), st₀) := hrd
    unfold Lexer.tokenOn
    rw [hf]
    simp only [Lexer.token, hrd₀, hcc]
    simp only [if_true]
    have htr : Lexer.tripleApos st₀
        = if c₂ = 39 then
            if c₃ = 39 then (Except.ok Token.TripleApos,
              LexState.mk st₀.buffer 3 st₀.bufferSize 4 1 st₀.reader)
            else (Except.error (ErrorKind.UnexpectedChar c₃ [39] ⟨1, 3⟩),
              LexState.mk st₀.buffer 2 st₀.bufferSize 3 1 st₀.reader)
          else (Except.error (ErrorKind.UnexpectedChar c₂ [39] ⟨1, 2⟩),
            LexState.mk st₀.buffer 1 st₀.bufferSize 2 1 st₀.reader) :=
      tripleApos_at st₀.buffer st₀.bufferSize st₀.reader c₂ c₃ hN3 hB0 hB1 hB2
    rw [htr]
    by_cases hc₂ : c₂ = 39 <;> by_cases hc₃ : c₃ = 39 <;> simp [hc₂, hc₃]

/-- C6, witness: the amended theorem evaluated with deviation byte 97
after each opening delimiter. -/
theorem claim_C6_witness :
    ((Lexer.tokenOn (60 :: 97 :: 98 :: [])).map Prod.fst
      = some (if (97 : Nat) = 60 then
                if (98 : Nat) = 60 then Except.ok Token.TripleLt
                else Except.error (ErrorKind.UnexpectedChar 98 [60] ⟨1, 3⟩)
              else Except.error (ErrorKind.UnexpectedChar 97 [60] ⟨1, 2⟩))
    ∧ (Lexer.tokenOn (39 :: 97 :: 98 :: [])).map Prod.fst
      = some (if (97 : Nat) = 39 then
                if (98 : Nat) = 39 then Except.ok Token.TripleApos
                else Except.error (ErrorKind.UnexpectedChar 98 [39] ⟨1, 3⟩)
              else Except.error (ErrorKind.UnexpectedChar 97 [39] ⟨1, 2⟩))) :=
  claim_C6_amended.1 97 98 [] (by decide) (by decide) (by decide)
